import Mathlib

/-!
Verification development for the test-pyramid monitor and marker validator.

The embedding mirrors two line-oriented Python scripts:
* `pyramid-monitor.py` — scans test files in four language conventions,
  builds a registry of tests and their tier markers, computes a tier
  distribution and a 0-10 pyramid score.
* `validate-markers.py` — an independent stricter pass over Python test
  files that flags every test lacking a tier marker.

File contents are modelled as lists of characters (`Line := List Char`),
whole files either as a list of lines or as a flat character list,
machine floats as exact rationals, Python `set`s as duplicate-free lists
built by membership-checking insertion, and a fallible file read as an
`Option` of the contents.
-/

set_option linter.unusedVariables false

namespace Pyramid

abbrev Line := List Char

/-- The closed tier enumeration: `unit`, `integration`, `e2e`. -/
inductive Marker where
  | unit
  | integration
  | e2e
  deriving DecidableEq, Repr

/-- The literal marker keyword, as in the source regexes. -/
def markerName : Marker → String
  | .unit => "unit"
  | .integration => "integration"
  | .e2e => "e2e"

/-- Python `\w`: ASCII letters, digits and underscore. -/
def isWordChar (c : Char) : Bool := c.isAlphanum || c = '_'

/-- Index of the leftmost occurrence of `pat` as a contiguous sublist of
`s`, scanning left to right as `re.search` does. -/
def findSub (pat : Line) : Line → Option Nat
  | [] => if pat = [] then some 0 else none
  | c :: t => if pat.isPrefixOf (c :: t) then some 0 else (findSub pat t).map (· + 1)

/-- Python `pat in s` for strings. -/
def hasSub (pat s : Line) : Bool := (findSub pat s).isSome

/-- The pattern `@pytest.mark.<tier>` searched for by both scripts. -/
def markPat (m : Marker) : Line := ("@pytest.mark." ++ markerName m).toList

/-- Set-insertion on a duplicate-free list: Python `set.add`. -/
def minsert (m : Marker) (s : List Marker) : List Marker :=
  if m ∈ s then s else m :: s

/-- Insert every element of `L` into `s`: Python `set` union / `update`. -/
def addAll (L : List Marker) (s : List Marker) : List Marker :=
  L.foldl (fun s m => minsert m s) s

/-- Python `set.add` for test-identifier sets, preserving insertion order. -/
def sinsert (x : String) (l : List String) : List String :=
  if x ∈ l then l else l ++ [x]

/-- `re.search(r"@pytest\.mark\.(unit|integration|e2e)", line)`: the
alternative matched at the leftmost occurrence (the three alternatives
start with distinct characters, so ties are impossible; alternation
order `unit`, `integration`, `e2e` breaks them anyway). -/
def pickLeft (a b : Option (Nat × Marker)) : Option (Nat × Marker) :=
  match a, b with
  | none, b => b
  | some x, none => some x
  | some (i, m), some (j, n) => if j < i then some (j, n) else some (i, m)

def tagSub (m : Marker) (l : Line) : Option (Nat × Marker) :=
  (findSub (markPat m) l).map (fun i => (i, m))

def searchMarker (l : Line) : Option Marker :=
  (pickLeft (pickLeft (tagSub .unit l) (tagSub .integration l)) (tagSub .e2e l)).map (·.2)

/-- All tier markers whose `@pytest.mark.<tier>` pattern occurs in the
line — the validator checks each of its three `PYRAMID_MARKERS` by
substring containment. -/
def pyMarkersIn (l : Line) : List Marker :=
  [Marker.unit, Marker.integration, Marker.e2e].filter (fun m => hasSub (markPat m) l)

/-- `line.strip().startswith("@pytest.mark.")` (stripping the right end
never affects a prefix test, so only the left strip is modelled). -/
def pyMarkLineB (l : Line) : Bool :=
  "@pytest.mark.".toList.isPrefixOf (l.dropWhile Char.isWhitespace)

/-- `re.match(r"^class (Test\w+)", line)`: the captured class name. -/
def classMatch (l : Line) : Option Line :=
  if "class Test".toList.isPrefixOf l then
    let w := (l.drop 10).takeWhile isWordChar
    if w = [] then none else some ("Test".toList ++ w)
  else none

/-- `re.match(r"^    def (test_\w+)", line)`: the captured test name.
The anchor demands exactly four spaces, then `def test_` and at least
one further word character. -/
def testMatch (l : Line) : Option Line :=
  if "    def test_".toList.isPrefixOf l then
    let w := (l.drop 13).takeWhile isWordChar
    if w = [] then none else some ("test_".toList ++ w)
  else none

/-!  ## Monitor: `_parse_python_test_file`  -/

/-- One recognised test occurrence: 0-based (monitor) or 1-based
(validator) line number, enclosing class if any, test name, and the
effective marker set computed for it. -/
structure PyEv where
  line : Nat
  cls : Option Line
  name : Line
  markers : List Marker
  deriving DecidableEq, Repr

structure MonSt where
  cls : Option Line
  cm : List Marker
  fm : List Marker
  deriving DecidableEq, Repr

/-- Class-marker lookback of `_parse_python_test_file`: for a class line
at 0-based index `k`, `for j in range(max(0, i - 10), i)` searches
`lines[j]`, i.e. the 10 lines `k-10 .. k-1`, keeping the first marker
found in each line. -/
def monWindowMarkers (all : List Line) (k : Nat) : List Marker :=
  ((all.take k).drop (k - 10)).foldl
    (fun s l => match searchMarker l with
      | some m => minsert m s
      | none => s) []

/-- Per-line state update of the monitor loop: the class-definition
check (which resets both marker sets and refills the class markers from
the lookback window) followed by the function-marker check.  The source
has no `continue`, so both checks run on every line. -/
def monScanLine (all : List Line) (k : Nat) (st : MonSt) (l : Line) : MonSt :=
  let st1 := match classMatch l with
    | some nm => ⟨some nm, monWindowMarkers all k, []⟩
    | none => st
  if pyMarkLineB l then
    match searchMarker l with
    | some m => { st1 with fm := minsert m st1.fm }
    | none => st1
  else st1

/-- The monitor loop over the numbered lines of one file.  A test line
records the union of class-level and function-level markers and clears
the function-level set. -/
def monRunAux (all : List Line) : List Line → Nat → MonSt → List PyEv
  | [], _, _ => []
  | l :: t, k, st =>
    let st1 := monScanLine all k st l
    match testMatch l with
    | some nm => ⟨k, st1.cls, nm, addAll st1.cm st1.fm⟩ :: monRunAux all t (k + 1) { st1 with fm := [] }
    | none => monRunAux all t (k + 1) st1

/-- All tests the monitor extracts from one convention-A file, with the
markers attached to each occurrence. -/
def monParse (lines : List Line) : List PyEv :=
  monRunAux lines lines 0 ⟨none, [], []⟩

/-!  ## Registry and scoring  -/

/-- The test registry: `all_tests` plus one set per tier. -/
structure Registry where
  all_tests : List String
  tests_by_marker : Marker → List String

def emptyRegistry : Registry := ⟨[], fun _ => []⟩

def updM (f : Marker → List String) (m : Marker) (v : List String) : Marker → List String :=
  fun x => if x = m then v else f x

/-- `f"{file_path.relative_to(...)}::{current_class or ''}{test_name}"` —
class name and test name are concatenated with no separator. -/
def monTestId (path : String) (e : PyEv) : String :=
  path ++ "::" ++ (match e.cls with | some c => String.mk c | none => "") ++ String.mk e.name

/-- Add one extracted test to the registry: `all_tests.add` plus one
`tests_by_marker[marker].add` per effective marker. -/
def regAdd (tid : String) (ms : List Marker) (r : Registry) : Registry :=
  let r1 : Registry := { r with all_tests := sinsert tid r.all_tests }
  ms.foldl (fun r m => { r with tests_by_marker := updM r.tests_by_marker m (sinsert tid (r.tests_by_marker m)) }) r1

/-- `_parse_python_test_file`: a `none` content models an unreadable
file (or any internal raise) — the `except` clause prints a warning and
leaves the registry untouched. -/
def parse_python_file (path : String) (content : Option (List Line)) (R : Registry) : Registry :=
  match content with
  | none => R
  | some lines => (monParse lines).foldl (fun r e => regAdd (monTestId path e) e.markers r) R

/-- `_collect_python_tests`: parse every discovered file in order. -/
def collect_python (files : List (String × Option (List Line))) (R : Registry) : Registry :=
  files.foldl (fun r f => parse_python_file f.1 f.2 r) R

/-- `calculate_distribution`: `(count / total) * 100`, every tier 0 when
`all_tests` is empty. -/
def calculate_distribution (R : Registry) : Marker → ℚ := fun marker =>
  if R.all_tests.length = 0 then 0
  else ((R.tests_by_marker marker).length : ℚ) / (R.all_tests.length : ℚ) * 100

/-- `sum(len(tests) for tests in self.tests_by_marker.values())` — the
scorer counts tier memberships with multiplicity, not the union. -/
def categorized_sum (R : Registry) : Nat :=
  (R.tests_by_marker .unit).length + (R.tests_by_marker .integration).length
    + (R.tests_by_marker .e2e).length

/-- `calculate_score`: base 10.0, minus `deviation * 0.1` per tier in
dict order (`unit`, `integration`, `e2e`), minus an uncategorized
penalty only when `len(all_tests) - categorized_sum` is positive,
clamped to `[0, 10]`. -/
def calculate_score (R : Registry) (targets : Marker → ℚ) (distribution : Marker → ℚ) : ℚ :=
  let score : ℚ := 10
  let score := score - |distribution .unit - targets .unit| * 0.1
  let score := score - |distribution .integration - targets .integration| * 0.1
  let score := score - |distribution .e2e - targets .e2e| * 0.1
  let uncategorized : ℤ := (R.all_tests.length : ℤ) - (categorized_sum R : ℤ)
  let score :=
    if 0 < uncategorized ∧ 0 < R.all_tests.length then
      score - ((uncategorized : ℚ) / (R.all_tests.length : ℚ) * 100) * 0.2
    else score
  max 0 (min 10 score)

/-- `DEFAULT_TARGETS`. -/
def defaultTargets : Marker → ℚ
  | .unit => 70
  | .integration => 20
  | .e2e => 10

/-- `get_missing_markers_count`: the union of the three tier sets,
built by `set.update` in dict order. -/
def categorized_union (R : Registry) : List String :=
  ((R.tests_by_marker .unit ++ R.tests_by_marker .integration) ++ R.tests_by_marker .e2e).foldl
    (fun s x => sinsert x s) []

/-- `len(self.all_tests - categorized)`. -/
def get_missing_markers_count (R : Registry) : Nat :=
  (R.all_tests.filter (fun x => !(x ∈ categorized_union R))).length

/-!  ## Validator: `validate_file` / `validate_files`  -/

structure ValSt where
  cls : Option Line
  cm : List Marker
  pend : List Marker
  deriving DecidableEq, Repr

/-- Class-marker lookback of `validate_file`: for a class line at
1-based number `i` (0-based index `k = i - 1`), `for j in
range(max(0, i - 11), i)` reads `lines[j - 1]` (the empty string when
`j = 0`), i.e. the 11 lines `k-11 .. k-1` — one more than the
monitor's window. -/
def valWindowMarkers (all : List Line) (k : Nat) : List Marker :=
  ((all.take k).drop (k - 11)).foldl (fun s l => addAll (pyMarkersIn l) s) []

/-- The validator loop over the numbered lines of one file, `k` being
the 0-based index (`i = k + 1` in the source).  The class branch ends
in `continue`; a test line records `pending_markers | class_markers`
and clears the pending set. -/
def valRunAux (all : List Line) : List Line → Nat → ValSt → List PyEv
  | [], _, _ => []
  | l :: t, k, st =>
    match classMatch l with
    | some nm => valRunAux all t (k + 1) ⟨some nm, valWindowMarkers all k, []⟩
    | none =>
      let st1 := if pyMarkLineB l then { st with pend := addAll (pyMarkersIn l) st.pend } else st
      match testMatch l with
      | some nm => ⟨k + 1, st.cls, nm, addAll st1.pend st.cm⟩ :: valRunAux all t (k + 1) { st1 with pend := [] }
      | none => valRunAux all t (k + 1) st1

/-- Every test occurrence the validator checks in one file (its
`total_tests_checked` counts them all). -/
def valParse (lines : List Line) : List PyEv :=
  valRunAux lines lines 0 ⟨none, [], []⟩

/-- A recorded violation.  `missingMarker` carries the 1-based line
number and the `{current_class}::{test_name}` (or bare name) location
that the source interpolates into its message string; `fileError`
models the `File not found` / `Error reading file` entries. -/
inductive Violation where
  | missingMarker (line : Nat) (location : String)
  | fileError
  deriving DecidableEq, Repr

def violationOf (e : PyEv) : Violation :=
  .missingMarker e.line
    (match e.cls with
     | some c => String.mk c ++ "::" ++ String.mk e.name
     | none => String.mk e.name)

/-- `validate_file`: a `none` content models a missing or unreadable
file, which returns `(False, [error message])`; otherwise every checked
test with an empty effective marker set becomes a violation, in line
order. -/
def validate_file (content : Option (List Line)) : Bool × List Violation :=
  match content with
  | none => (false, [.fileError])
  | some lines =>
    let vs := ((valParse lines).filter (fun e => e.markers = [])).map violationOf
    (vs.isEmpty, vs)

/-- The validator's accumulated instance state: the `violations` dict
(an association list keyed by file path, insertion-ordered), and the
two running totals. -/
structure ValState where
  violations : List (String × List Violation)
  total_tests_checked : Nat
  total_violations : Nat
  deriving DecidableEq, Repr

/-- Python dict assignment `self.violations[path] = vs`. -/
def updateAssoc (p : String) (v : List Violation) :
    List (String × List Violation) → List (String × List Violation)
  | [] => [(p, v)]
  | (q, w) :: t => if q = p then (p, v) :: t else (q, w) :: updateAssoc p v t

/-- `total_tests_checked` is incremented once per test line inside
`validate_file`; an unreadable file checks no tests. -/
def checkedOf : Option (List Line) → Nat
  | none => 0
  | some lines => (valParse lines).length

/-- `total_violations` is incremented only for missing-marker
violations, not for file errors. -/
def missingCount (vs : List Violation) : Nat :=
  (vs.filter (fun v => match v with | .missingMarker _ _ => true | .fileError => false)).length

/-- One iteration of `validate_files`: record the file's violations
when it is not valid. -/
def valFileStep (s : ValState) (f : String × Option (List Line)) : ValState :=
  let r := validate_file f.2
  { violations := if r.1 then s.violations else updateAssoc f.1 r.2 s.violations,
    total_tests_checked := s.total_tests_checked + checkedOf f.2,
    total_violations := s.total_violations + missingCount r.2 }

/-- `validate_files` over `(path, readable contents)` pairs. -/
def validate_files (files : List (String × Option (List Line))) : ValState :=
  files.foldl valFileStep ⟨[], 0, 0⟩

/-- `get_json_report`'s `"valid"` field: `len(self.violations) == 0`. -/
def report_valid (s : ValState) : Bool := s.violations.isEmpty

/-!  ## `re.finditer` over flat file contents

A matcher tries one pattern at the current position and on success
returns the captured group together with the number of characters the
whole match consumes (always at least one for the patterns below).
`scanF` replays `finditer`: try the pattern at each position, emit
non-overlapping matches left to right, and continue after each match.
Each step consumes at least one character, so `s.length` steps of fuel
make the recursion structural without changing the semantics.  Every
emitted match carries the text before its start (`content[:match.start()]`),
which is what the lookback windows of the Go and Rust parsers slice. -/

def scanF (m : Line → Option (Line × Nat)) : Nat → Line → Line → List (Line × Line)
  | 0, _, _ => []
  | _, _, [] => []
  | fuel + 1, revPre, c :: t =>
    match m (c :: t) with
    | some (cap, k) =>
      (revPre.reverse, cap) :: scanF m fuel (((c :: t).take k).reverse ++ revPre) ((c :: t).drop k)
    | none => scanF m fuel (c :: revPre) t

def scan (m : Line → Option (Line × Nat)) (s : Line) : List (Line × Line) :=
  scanF m s.length [] s

def isQuote (c : Char) : Bool := c = '\'' || c = '"'

/-- The lazy tail `(.+?)['\"]` of the JavaScript patterns: at least one
non-newline character (`.` does not cross a line), then the first
reachable quote of either kind.  Returns the captured text and the
number of characters consumed. -/
def firstQuote : Line → Option Nat
  | [] => none
  | c :: t => if isQuote c then some 0 else if c = '\n' then none else (firstQuote t).map (· + 1)

def lazyDotQuote : Line → Option (Line × Nat)
  | [] => none
  | a :: rest =>
    if a = '\n' then none
    else (firstQuote rest).map (fun m => (a :: rest.take m, 1 + m + 1))

/-- Backtracking for `\s*(.+?)['\"]`: the greedy `\s*` tries the whole
leading whitespace run first, then shorter prefixes. -/
def tailFrom (t : Line) : Nat → Option Nat
  | 0 => (lazyDotQuote t).map (·.2)
  | k + 1 =>
    match lazyDotQuote (t.drop (k + 1)) with
    | some p => some (k + 1 + p.2)
    | none => tailFrom t k

def tailMatch (t : Line) : Option Nat :=
  tailFrom t (t.takeWhile Char.isWhitespace).length

/-- `describe\(['\"](\w+):\s*(.+?)['\"]` at the current position; the
capture of interest is group 1, the word before the colon. -/
def matchDescribeAt (s : Line) : Option (Line × Nat) :=
  if "describe(".toList.isPrefixOf s then
    match s.drop 9 with
    | [] => none
    | q :: r =>
      if isQuote q then
        let w := r.takeWhile isWordChar
        if w = [] then none
        else
          match r.drop w.length with
          | ':' :: r2 => (tailMatch r2).map (fun c => (w, 9 + 1 + w.length + 1 + c))
          | _ => none
      else none
  else none

/-- `(?:test|it)\(['\"](.+?)['\"]`, capturing the test name. -/
def matchTestCallAt (s : Line) : Option (Line × Nat) :=
  if "test(".toList.isPrefixOf s then
    match s.drop 5 with
    | [] => none
    | q :: r =>
      if isQuote q then (lazyDotQuote r).map (fun p => (p.1, 5 + 1 + p.2)) else none
  else if "it(".toList.isPrefixOf s then
    match s.drop 3 with
    | [] => none
    | q :: r =>
      if isQuote q then (lazyDotQuote r).map (fun p => (p.1, 3 + 1 + p.2)) else none
  else none

/-- `category = match.group(1).lower()` and the membership test against
the keys of `tests_by_marker`. -/
def markerOfName (w : Line) : Option Marker :=
  if w = "unit".toList then some .unit
  else if w = "integration".toList then some .integration
  else if w = "e2e".toList then some .e2e
  else none

def jsDescribeCats (content : Line) : List Line :=
  (scan matchDescribeAt content).map (·.2)

/-- The first loop of `_parse_javascript_test_file`: iterate every
describe match in the file and keep the last valid category. -/
def jsLastCat (content : Line) : Option Marker :=
  (jsDescribeCats content).foldl
    (fun cur g => match markerOfName (g.map Char.toLower) with
      | some m => some m
      | none => cur) none

def jsTestNames (content : Line) : List Line :=
  (scan matchTestCallAt content).map (·.2)

/-- The body of the second loop of `_parse_javascript_test_file`:
`all_tests.add(test_id)` and, when a current category exists,
`tests_by_marker[current_category].add(test_id)`. -/
def jsAddTest (path : String) (cur : Option Marker) (r : Registry) (nm : Line) : Registry :=
  let tid := path ++ "::" ++ String.mk nm
  let r1 : Registry := { r with all_tests := sinsert tid r.all_tests }
  match cur with
  | some m => { r1 with tests_by_marker := updM r1.tests_by_marker m (sinsert tid (r1.tests_by_marker m)) }
  | none => r1

/-- `_parse_javascript_test_file`: after the describe loop fixes
`current_category`, every test in the file is added to `all_tests` and,
when a category was found, to that one tier set. -/
def parse_javascript_file (path : String) (content : Line) (R : Registry) : Registry :=
  (jsTestNames content).foldl (jsAddTest path (jsLastCat content)) R

/-!  ## Go and Rust parsers  -/

/-- Python `content[:pos].split("\n")`. -/
def splitNl : Line → List Line
  | [] => [[]]
  | c :: t =>
    if c = '\n' then [] :: splitNl t
    else
      match splitNl t with
      | [] => [[c]]
      | h :: r => (c :: h) :: r

/-- Python `xs[-5:]` etc. -/
def lastN (n : Nat) (l : List Line) : List Line := l.drop (l.length - n)

/-- `func (Test\w+)\(`. -/
def matchGoFuncAt (s : Line) : Option (Line × Nat) :=
  if "func Test".toList.isPrefixOf s then
    let w := (s.drop 9).takeWhile isWordChar
    if w = [] then none
    else
      match s.drop (9 + w.length) with
      | '(' :: _ => some ("Test".toList ++ w, 9 + w.length + 1)
      | _ => none
  else none

/-- The `// +build <tier>` / `//go:build <tier>` checks, an
`if/elif/elif` chain per line. -/
def goTierStep (s : List Marker) (l : Line) : List Marker :=
  if hasSub ("// +build unit").toList l || hasSub ("//go:build unit").toList l then
    minsert .unit s
  else if hasSub ("// +build integration").toList l || hasSub ("//go:build integration").toList l then
    minsert .integration s
  else if hasSub ("// +build e2e").toList l || hasSub ("//go:build e2e").toList l then
    minsert .e2e s
  else s

/-- `_parse_go_test_file` on one file's contents: each `func Test...(`
match yields the test name and the tiers found in
`content[:match.start()].split("\n")[-5:]` — the four full lines above
the declaration plus the declaration line's own prefix. -/
def parseGoContent (content : Line) : List (Line × List Marker) :=
  (scan matchGoFuncAt content).map
    (fun r => (r.2, (lastN 5 (splitNl r.1)).foldl goTierStep []))

/-- `#\[test\]\s*fn (\w+)`. -/
def matchRustTestAt (s : Line) : Option (Line × Nat) :=
  if "#[test]".toList.isPrefixOf s then
    let r := s.drop 7
    let ws := r.takeWhile Char.isWhitespace
    let r2 := r.drop ws.length
    if "fn ".toList.isPrefixOf r2 then
      let w := (r2.drop 3).takeWhile isWordChar
      if w = [] then none else some (w, 7 + ws.length + 3 + w.length)
    else none
  else none

/-- The `// unit` / `// integration` / `// e2e` checks on
`line.lower()`, an `if/elif/elif` chain per line. -/
def rustTierStep (s : List Marker) (l : Line) : List Marker :=
  let low := l.map Char.toLower
  if hasSub ("// unit").toList low then minsert .unit s
  else if hasSub ("// integration").toList low then minsert .integration s
  else if hasSub ("// e2e").toList low then minsert .e2e s
  else s

/-- `_parse_rust_test_file` on one file's contents, with the same
5-segment lookback anchored at the start of the `#[test]` attribute. -/
def parseRustContent (content : Line) : List (Line × List Marker) :=
  (scan matchRustTestAt content).map
    (fun r => (r.2, (lastN 5 (splitNl r.1)).foldl rustTierStep []))

/-!  ## Statements taken verbatim from the specification

These definitions follow the words of spec sentences (not the source);
they exist only to be compared against the source-derived definitions
above. -/

/-- Modelled from the spec, for comparison with `calculate_score`: the
claimed formula `clamp(10 - Σ |actual - target| * 0.1 -
uncategorized_percentage * 0.2, 0, 10)` with
`uncategorized_percentage = 100 * (|all_tests| - |union of
tests_by_marker|) / |all_tests|`, zero when `all_tests` is empty. -/
def score_per_spec (R : Registry) (targets : Marker → ℚ) : ℚ :=
  let dist := calculate_distribution R
  let devSum : ℚ :=
    |dist .unit - targets .unit| + |dist .integration - targets .integration|
      + |dist .e2e - targets .e2e|
  let uncatPct : ℚ :=
    if R.all_tests.length = 0 then 0
    else ((R.all_tests.length : ℚ) - ((categorized_union R).length : ℚ))
           / (R.all_tests.length : ℚ) * 100
  max 0 (min 10 (10 - devSum * 0.1 - uncatPct * 0.2))

/-!  ## Concrete scenario inputs  -/

/-- Registry with one test in both `unit` and `integration` and a
second test in no tier: the scorer's multiplicity count sees 2
categorized memberships while the union has 1 element. -/
def overlapRegistry : Registry :=
  { all_tests := ["a", "b"],
    tests_by_marker := fun m =>
      match m with
      | .unit => ["a"]
      | .integration => ["a"]
      | .e2e => [] }

/-- Scenario 1 (claim C5): one scope-level `integration` annotation,
a `Test`-prefixed class, two tests, the first with an extra
function-level `unit` annotation. -/
def c5lines : List Line :=
  [("@pytest.mark.integration").toList,
   ("class TestFoo:").toList,
   ("    @pytest.mark.unit").toList,
   ("    def test_one(self):").toList,
   ("        assert True").toList,
   ("").toList,
   ("    def test_two(self):").toList,
   ("        assert True").toList]

/-- Scenario 4 (claim C6): a single test with no marker of any kind. -/
def s4lines : List Line :=
  [("class TestX:").toList,
   ("    def test_foo(self):").toList,
   ("        pass").toList]

def s4files : List (String × Option (List Line)) := [("t.py", some s4lines)]

/-- Counterexample input for C3: a marker line exactly 11 lines above
a class declaration — inside the validator's lookback window but
outside the monitor's. -/
def c3lines : List Line :=
  [("@pytest.mark.unit").toList,
   ("x").toList, ("x").toList, ("x").toList, ("x").toList, ("x").toList,
   ("x").toList, ("x").toList, ("x").toList, ("x").toList, ("x").toList,
   ("class TestA:").toList,
   ("    def test_a(self):").toList]

/-- Counterexample input for C2: a test before any describe block,
then a tier-labelled describe, then a second test. -/
def c2content : Line :=
  ("test(\"a\")\ndescribe(\"unit: parser\", cb)\ntest(\"b\")").toList

/-- A Go file whose `// +build unit` line sits `e + 1` lines above the
`func TestFoo(` declaration (`e` blank lines in between). -/
def mkGoContent (e : Nat) : Line :=
  ("// +build unit").toList ++ List.replicate (e + 1) '\n' ++ ("func TestFoo() {}").toList

/-- A Rust file whose `// unit` line sits `e + 1` lines above the
`#[test]` attribute, the `fn` declaration following on the next
line. -/
def mkRustContent (e : Nat) : Line :=
  ("// unit").toList ++ List.replicate (e + 1) '\n' ++ ("#[test]\nfn works() {}").toList

/-- A distribution sitting exactly on the default unit target. -/
def c9d : Marker → ℚ := fun m => match m with | .unit => 70 | _ => 0

/-- The same distribution with the unit percentage moved to 0
(deviation 70 instead of 0). -/
def c9dP : Marker → ℚ := fun _ => 0

/-- Witness input for C10: test functions at module level, at 8-space
and at 2-space indentation, with a marker line — none is a recognized
test. -/
def c10lines : List Line :=
  [("def test_top():").toList,
   ("@pytest.mark.unit").toList,
   ("        def test_deep(self):").toList,
   ("  def test_mid(self):").toList]

/-- 0-based indices of the lines where the monitor adds a test with an
empty effective tier set (an uncategorized addition). -/
def monUncatLines (lines : List Line) : List Nat :=
  ((monParse lines).filter (fun e => e.markers = [])).map (fun e => e.line)

/-- 1-based line numbers of the validator's missing-marker
violations. -/
def valViolationLines (lines : List Line) : List Nat :=
  ((valParse lines).filter (fun e => e.markers = [])).map (fun e => e.line)

/-- No tier-marker line sits exactly 11 lines above a class
declaration — the one configuration on which the validator's 11-line
lookback window sees more than the monitor's 10-line window. -/
def noMarker11 (lines : List Line) : Prop :=
  ∀ k, k < lines.length → 11 ≤ k → classMatch (lines.getD k []) ≠ none →
    pyMarkersIn (lines.getD (k - 11) []) = []

/-- Witness input for C3: two unmarked tests in a class — both
components flag both, at matching line numbers. -/
def c3wlines : List Line :=
  [("class TestFoo:").toList,
   ("    def test_one(self):").toList,
   ("x").toList,
   ("    def test_two(self):").toList]

/-!  ## Shared lemmas  -/

theorem minsert_ne_nil (m : Marker) (s : List Marker) : minsert m s ≠ [] := by
  by_cases h : m ∈ s
  · simpa [minsert, h] using List.ne_nil_of_mem h
  · simp [minsert, h]

theorem addAll_eq_nil_iff (L : List Marker) : ∀ s, addAll L s = [] ↔ L = [] ∧ s = [] := by
  induction L with
  | nil => intro s; simp [addAll]
  | cons m L ih =>
    intro s
    have : addAll (m :: L) s = addAll L (minsert m s) := rfl
    rw [this, ih]
    simp [minsert_ne_nil]

theorem pickLeft_eq_none_iff (a b : Option (Nat × Marker)) :
    pickLeft a b = none ↔ a = none ∧ b = none := by
  rcases a with _ | ⟨i, m⟩ <;> rcases b with _ | ⟨j, n⟩ <;> simp [pickLeft]
  split <;> simp

theorem searchMarker_eq_none_iff (l : Line) : searchMarker l = none ↔ pyMarkersIn l = [] := by
  have h : ∀ m : Marker, (tagSub m l = none ↔ ¬hasSub (markPat m) l = true) := by
    intro m
    rw [tagSub, Option.map_eq_none', hasSub]
    cases findSub (markPat m) l <;> simp
  rw [searchMarker, Option.map_eq_none', pickLeft_eq_none_iff, pickLeft_eq_none_iff,
    pyMarkersIn, List.filter_eq_nil_iff]
  constructor
  · rintro ⟨⟨h1, h2⟩, h3⟩ m hm
    cases m with
    | unit => exact (h .unit).mp h1
    | integration => exact (h .integration).mp h2
    | e2e => exact (h .e2e).mp h3
  · intro hp
    refine ⟨⟨(h .unit).mpr (hp _ ?_), (h .integration).mpr (hp _ ?_)⟩,
      (h .e2e).mpr (hp _ ?_)⟩ <;> simp

theorem pyMarkersIn_nil_of_searchMarker {l : Line} (h : searchMarker l = none) :
    pyMarkersIn l = [] := (searchMarker_eq_none_iff l).mp h

/-!  ## C8: empty registry is safe  -/

/-- C8 (confirmed).  For every Registry with `all_tests` empty, the
distribution calculator returns exactly 0 for every tier and the
scorer takes the no-penalty branch for uncategorized tests (its guard
`uncategorized > 0 and len(all_tests) > 0` is false), so no division
by zero occurs and the score reduces to the deviation-only clamp. -/
theorem c8_empty_registry_no_division (R : Registry) (targets : Marker → ℚ)
    (h : R.all_tests = []) :
    (∀ m, calculate_distribution R m = 0)
    ∧ ¬(0 < (R.all_tests.length : ℤ) - (categorized_sum R : ℤ) ∧ 0 < R.all_tests.length)
    ∧ calculate_score R targets (calculate_distribution R) =
        max 0 (min 10 (10 - (|(0 : ℚ) - targets .unit| + |(0 : ℚ) - targets .integration|
          + |(0 : ℚ) - targets .e2e|) * 0.1)) := by
  have hlen : R.all_tests.length = 0 := by rw [h]; rfl
  have hdist : ∀ m, calculate_distribution R m = 0 := by
    intro m; simp [calculate_distribution, hlen]
  refine ⟨hdist, ?_, ?_⟩
  · rintro ⟨-, h2⟩
    omega
  · simp only [calculate_score, hdist, hlen]
    norm_num
    congr 2
    ring

/-- Witness for C8 at the concretely empty registry and default
targets. -/
theorem c8_witness :
    (∀ m, calculate_distribution emptyRegistry m = 0)
    ∧ ¬(0 < (emptyRegistry.all_tests.length : ℤ) - (categorized_sum emptyRegistry : ℤ)
          ∧ 0 < emptyRegistry.all_tests.length)
    ∧ calculate_score emptyRegistry defaultTargets (calculate_distribution emptyRegistry) =
        max 0 (min 10 (10 - (|(0 : ℚ) - defaultTargets .unit| + |(0 : ℚ) - defaultTargets .integration|
          + |(0 : ℚ) - defaultTargets .e2e|) * 0.1)) :=
  c8_empty_registry_no_division emptyRegistry defaultTargets rfl

/-!  ## C9: score is monotone in each single deviation  -/

/-- C9 (confirmed).  Holding the other tiers' distribution values and
the registry (hence the uncategorized penalty) fixed, increasing one
tier's deviation from its target never increases the score, through
the clamp included. -/
theorem c9_score_monotone (targets d dP : Marker → ℚ) (R : Registry) (m0 : Marker)
    (hother : ∀ m, m ≠ m0 → dP m = d m)
    (hdev : |d m0 - targets m0| ≤ |dP m0 - targets m0|) :
    calculate_score R targets dP ≤ calculate_score R targets d := by
  simp only [calculate_score]
  have key : (10 : ℚ) - |dP .unit - targets .unit| * 0.1 - |dP .integration - targets .integration| * 0.1
        - |dP .e2e - targets .e2e| * 0.1
      ≤ 10 - |d .unit - targets .unit| * 0.1 - |d .integration - targets .integration| * 0.1
        - |d .e2e - targets .e2e| * 0.1 := by
    cases m0 with
    | unit =>
      have h1 := hother .integration (by simp)
      have h2 := hother .e2e (by simp)
      rw [h1, h2]; linarith
    | integration =>
      have h1 := hother .unit (by simp)
      have h2 := hother .e2e (by simp)
      rw [h1, h2]; linarith
    | e2e =>
      have h1 := hother .unit (by simp)
      have h2 := hother .integration (by simp)
      rw [h1, h2]; linarith
  apply max_le_max le_rfl
  apply min_le_min le_rfl
  by_cases hc : 0 < (R.all_tests.length : ℤ) - (categorized_sum R : ℤ) ∧ 0 < R.all_tests.length
  · simp only [if_pos hc]; linarith
  · simp only [if_neg hc]; linarith

/-- Witness for C9: moving the unit percentage from exactly on target
(deviation 0) to 0 (deviation 70) does not increase the score. -/
theorem c9_witness :
    calculate_score emptyRegistry defaultTargets c9dP ≤ calculate_score emptyRegistry defaultTargets c9d :=
  c9_score_monotone defaultTargets c9d c9dP emptyRegistry .unit
    (by intro m hm; cases m with
        | unit => exact absurd rfl hm
        | integration => rfl
        | e2e => rfl)
    (by simp [c9d, c9dP, defaultTargets])

/-!  ## C1: the scorer's uncategorized count uses a multiplicity sum,
not the union  -/

/-- C1 counterexample.  `overlapRegistry` holds `a` in both `unit` and
`integration` and `b` in no tier.  The claimed formula (with
`|union of tests_by_marker|` = 1) yields uncategorized percentage 50
and score 0, but `calculate_score` sums the tier counts (2), sees no
uncategorized test, and returns 4. -/
theorem c1_counterexample :
    calculate_score overlapRegistry defaultTargets (calculate_distribution overlapRegistry) = 4
    ∧ score_per_spec overlapRegistry defaultTargets = 0 := by
  constructor
  · show max 0 (min 10 _) = 4
    norm_num [calculate_score, calculate_distribution, categorized_sum, overlapRegistry,
      defaultTargets]
  · norm_num [score_per_spec, calculate_distribution, categorized_union, overlapRegistry,
      defaultTargets, sinsert]

/-- C1 as amended.  The scorer returns
`clamp(10 - Σ |actual - target| * 0.1 - penalty, 0, 10)` where the
uncategorized penalty uses `|all_tests| - Σ |tests_by_marker[tier]|`
(tier counts summed with multiplicity, not their union) and is applied
only when that signed difference is positive. -/
theorem c1_score_formula (R : Registry) (targets : Marker → ℚ) :
    calculate_score R targets (calculate_distribution R) =
      max 0 (min 10
        (10 - (|calculate_distribution R .unit - targets .unit|
             + |calculate_distribution R .integration - targets .integration|
             + |calculate_distribution R .e2e - targets .e2e|) * 0.1
           - (if 0 < (R.all_tests.length : ℤ) - (categorized_sum R : ℤ)
                 ∧ 0 < R.all_tests.length
              then (((R.all_tests.length : ℤ) - (categorized_sum R : ℤ) : ℤ) : ℚ)
                     / (R.all_tests.length : ℚ) * 100 * 0.2
              else 0))) := by
  simp only [calculate_score]
  by_cases hc : 0 < (R.all_tests.length : ℤ) - (categorized_sum R : ℤ) ∧ 0 < R.all_tests.length
  · simp only [if_pos hc]
    congr 2
    ring
  · simp only [if_neg hc]
    congr 2
    ring

/-!  ## C2: the JavaScript parser is not positional  -/

/-- C2 counterexample.  In `c2content`, `test('a')` occurs before any
describe block, so under the claim its tier set must be empty; but the
parser runs its describe loop over the whole file first, so the
`describe('unit: ...')` that only follows the test still tags it. -/
theorem c2_counterexample :
    jsLastCat c2content = some .unit
    ∧ (parse_javascript_file "p" c2content emptyRegistry).tests_by_marker .unit
        = ["p::a", "p::b"] := by
  constructor
  · decide
  · decide

theorem js_fold_invariant (path : String) (cur : Option Marker) :
    ∀ (names : List Line) (r : Registry),
      (∀ m, r.tests_by_marker m = if cur = some m then r.all_tests else []) →
      ∀ m, (names.foldl (jsAddTest path cur) r).tests_by_marker m =
        if cur = some m then (names.foldl (jsAddTest path cur) r).all_tests else [] := by
  intro names
  induction names with
  | nil => intro r h m; exact h m
  | cons nm t ih =>
    intro r h m
    simp only [List.foldl_cons]
    apply ih
    intro m1
    have hm1 := h m1
    rcases hcur : cur with _ | m0
    · rw [hcur] at hm1
      simp only [jsAddTest, hcur]
      simpa using hm1
    · rw [hcur] at hm1
      simp only [jsAddTest, hcur, updM]
      by_cases he : m1 = m0

      · subst he
        simp only [if_pos rfl]
        have : r.tests_by_marker m1 = r.all_tests := by simpa using hm1
        simp [this]
      · have hne : ¬(some m0 = some m1) := by
          intro hh; exact he (Option.some.inj hh).symm
        simp only [if_neg he, if_neg hne]
        simpa [hne] using hm1

/-- C2 as amended.  Tier assignment in a convention-B file is global,
not positional: every test-registration call in the file (those before
the grouping construct included) is assigned exactly the tier of the
last tier-labeled grouping construct appearing anywhere in the file,
and the empty tier set only when no tier-labeled construct occurs in
the file at all. -/
theorem c2_last_describe_governs_all (path : String) (content : Line) (m : Marker) :
    (parse_javascript_file path content emptyRegistry).tests_by_marker m =
      if jsLastCat content = some m
      then (parse_javascript_file path content emptyRegistry).all_tests
      else [] := by
  apply js_fold_invariant
  intro m1
  simp [emptyRegistry]

/-!  ## C5: scenario 1 on the convention-A extractor  -/

/-- C5 (confirmed).  On the scenario-1 file — a scope-level
`integration` annotation one line above `class TestFoo`, two tests, the
first with a function-level `unit` annotation — both tests land in the
`integration` set, the first additionally (and alone) in the `unit`
set, the `e2e` set is empty, and no test is uncategorized. -/
theorem c5_scenario1 :
    (parse_python_file "f" (some c5lines) emptyRegistry).all_tests
        = ["f::TestFootest_one", "f::TestFootest_two"]
    ∧ (parse_python_file "f" (some c5lines) emptyRegistry).tests_by_marker .integration
        = ["f::TestFootest_one", "f::TestFootest_two"]
    ∧ (parse_python_file "f" (some c5lines) emptyRegistry).tests_by_marker .unit
        = ["f::TestFootest_one"]
    ∧ (parse_python_file "f" (some c5lines) emptyRegistry).tests_by_marker .e2e = []
    ∧ get_missing_markers_count (parse_python_file "f" (some c5lines) emptyRegistry) = 0 := by
  refine ⟨?_, ?_, ?_, ?_, ?_⟩ <;> decide

/-!  ## C6: aggregate validity and scenario 4  -/

theorem updateAssoc_ne_nil (p : String) (v : List Violation)
    (l : List (String × List Violation)) : updateAssoc p v l ≠ [] := by
  cases l with
  | nil => simp [updateAssoc]
  | cons h t =>
    rcases h with ⟨q, w⟩
    by_cases hq : q = p <;> simp [updateAssoc, hq]

theorem valFold_viol_ne_nil :
    ∀ (fs : List (String × Option (List Line))) (s : ValState),
      s.violations ≠ [] → (fs.foldl valFileStep s).violations ≠ [] := by
  intro fs
  induction fs with
  | nil => intro s h; exact h
  | cons f t ih =>
    intro s h
    simp only [List.foldl_cons]
    apply ih
    simp only [valFileStep]
    split
    · exact h
    · exact updateAssoc_ne_nil _ _ _

theorem validate_file_fst_iff (c : Option (List Line)) :
    (validate_file c).1 = true ↔ (validate_file c).2 = [] := by
  cases c with
  | none => simp [validate_file]
  | some lines => simp [validate_file, List.isEmpty_iff]

theorem valFold_viol_nil_iff :
    ∀ (fs : List (String × Option (List Line))) (s : ValState),
      (fs.foldl valFileStep s).violations = [] ↔
        (s.violations = [] ∧ ∀ f ∈ fs, (validate_file f.2).2 = []) := by
  intro fs
  induction fs with
  | nil => intro s; simp
  | cons f t ih =>
    intro s
    simp only [List.foldl_cons]
    rw [ih]
    by_cases hf : (validate_file f.2).2 = []
    · have h1 : (validate_file f.2).1 = true := (validate_file_fst_iff f.2).mpr hf
      simp only [valFileStep, h1, if_pos rfl]
      constructor
      · rintro ⟨h2, h3⟩
        refine ⟨h2, ?_⟩
        intro g hg
        rcases List.mem_cons.mp hg with hg | hg
        · rw [hg]; exact hf
        · exact h3 g hg
      · rintro ⟨h2, h3⟩
        exact ⟨h2, fun g hg => h3 g (List.mem_cons_of_mem f hg)⟩
    · have h1 : (validate_file f.2).1 ≠ true := by
        intro hh; exact hf ((validate_file_fst_iff f.2).mp hh)
      have h1f : (validate_file f.2).1 = false := by
        cases hb : (validate_file f.2).1
        · rfl
        · exact absurd hb h1
      simp only [valFileStep, h1f]
      constructor
      · rintro ⟨h2, -⟩
        exact absurd h2 (by simp [updateAssoc_ne_nil])
      · rintro ⟨-, h3⟩
        exact absurd (h3 f (List.mem_cons_self f t)) hf

/-- C6 (confirmed).  The aggregate result is valid exactly when every
scanned file produced an empty violation list; on the scenario-4 file
(one test, no marker anywhere) the run records exactly one violation
carrying line number 2 and location `TestX::test_foo`, counts one test
checked and one violation, and the aggregate is invalid. -/
theorem c6_valid_iff_no_violations :
    (∀ fs : List (String × Option (List Line)),
        report_valid (validate_files fs) = true ↔ ∀ f ∈ fs, (validate_file f.2).2 = [])
    ∧ validate_files s4files
        = ⟨[("t.py", [Violation.missingMarker 2 "TestX::test_foo"])], 1, 1⟩ := by
  constructor
  · intro fs
    rw [report_valid, List.isEmpty_iff, validate_files, valFold_viol_nil_iff]
    simp
  · decide

/-- Witness for C6: the iff applied to the scenario-4 run shows the
aggregate is invalid. -/
theorem c6_witness : report_valid (validate_files s4files) = false := by
  have h := c6_valid_iff_no_violations.1 s4files
  have hr : ¬∀ f ∈ s4files, (validate_file f.2).2 = [] := by decide
  cases hb : report_valid (validate_files s4files)
  · rfl
  · exact absurd (h.mp hb) hr

/-!  ## C7: failed files — monitor skips, validator records  -/

/-- C7 counterexample.  The claim says an unreadable file is reported
only as a warning and skipped, leaving the result as if the file were
absent.  In the validator an unreadable file is recorded as a violation
entry: a run over just that file has a nonempty violations map and an
invalid aggregate, where a run over no files is valid. -/
theorem c7_counterexample :
    report_valid (validate_files [("f.py", none)]) = false
    ∧ (validate_files [("f.py", none)]).violations = [("f.py", [Violation.fileError])]
    ∧ (validate_files [("f.py", none)]).total_tests_checked = 0
    ∧ report_valid (validate_files []) = true := by
  refine ⟨?_, ?_, ?_, ?_⟩ <;> decide

theorem valFold_checked :
    ∀ (fs : List (String × Option (List Line))) (s : ValState),
      (fs.foldl valFileStep s).total_tests_checked =
        s.total_tests_checked + (fs.map (fun f => checkedOf f.2)).sum := by
  intro fs
  induction fs with
  | nil => intro s; simp
  | cons f t ih =>
    intro s
    simp only [List.foldl_cons, List.map_cons, List.sum_cons]
    rw [ih]
    simp only [valFileStep]
    omega

/-- C7 as amended.  In the monitor, an unreadable file (or one whose
extraction raises — the whole parse body is inside the `try`) never
aborts the scan: it contributes nothing to the registry and the other
files' contributions are exactly those of the run without it.  In the
validator the scan likewise continues, the failed file contributes
zero checked tests, but the failure is not merely warned: it is
recorded in the violations map and forces the aggregate result to
invalid. -/
theorem c7_failed_file_handling :
    (∀ p R, parse_python_file p none R = R)
    ∧ (∀ (fs1 fs2 : List (String × Option (List Line))) (p : String) (R : Registry),
        collect_python (fs1 ++ (p, none) :: fs2) R = collect_python (fs1 ++ fs2) R)
    ∧ (∀ (fs1 fs2 : List (String × Option (List Line))) (p : String),
        (validate_files (fs1 ++ (p, none) :: fs2)).total_tests_checked
          = (validate_files (fs1 ++ fs2)).total_tests_checked
        ∧ report_valid (validate_files (fs1 ++ (p, none) :: fs2)) = false) := by
  refine ⟨fun p R => rfl, ?_, ?_⟩
  · intro fs1 fs2 p R
    simp only [collect_python, List.foldl_append, List.foldl_cons]
    rfl
  · intro fs1 fs2 p
    constructor
    · rw [validate_files, validate_files, List.foldl_append, List.foldl_append,
        List.foldl_cons, valFold_checked, valFold_checked]
      simp only [valFileStep, checkedOf]
      omega
    · have hne : (valFileStep (fs1.foldl valFileStep ⟨[], 0, 0⟩) (p, none)).violations ≠ [] := by
        simp only [valFileStep, validate_file]
        exact updateAssoc_ne_nil _ _ _
      have h2 := valFold_viol_ne_nil fs2 _ hne
      rw [validate_files, List.foldl_append, List.foldl_cons, report_valid]
      cases hb : ((fs2.foldl valFileStep
          (valFileStep (fs1.foldl valFileStep ⟨[], 0, 0⟩) (p, none))).violations).isEmpty
      · rfl
      · exact absurd (List.isEmpty_iff.mp hb) h2

/-!  ## C10: tests are recognized only at exactly four spaces of
indentation  -/

theorem testMatch_eq_none_of_no_pre {l : Line}
    (h : ("    def test_".toList.isPrefixOf l) = false) : testMatch l = none := by
  simp only [testMatch, h]
  simp

theorem monRunAux_eq_nil :
    ∀ (rest : List Line) (all : List Line) (k : Nat) (st : MonSt),
      (∀ l ∈ rest, testMatch l = none) → monRunAux all rest k st = [] := by
  intro rest
  induction rest with
  | nil => intro all k st h; rfl
  | cons l t ih =>
    intro all k st h
    have hl := h l (List.mem_cons_self l t)
    simp only [monRunAux, hl]
    exact ih all (k + 1) _ (fun x hx => h x (List.mem_cons_of_mem l hx))

theorem valRunAux_eq_nil :
    ∀ (rest : List Line) (all : List Line) (k : Nat) (st : ValSt),
      (∀ l ∈ rest, testMatch l = none) → valRunAux all rest k st = [] := by
  intro rest
  induction rest with
  | nil => intro all k st h; rfl
  | cons l t ih =>
    intro all k st h
    have hl := h l (List.mem_cons_self l t)
    have ht : ∀ x ∈ t, testMatch x = none := fun x hx => h x (List.mem_cons_of_mem l hx)
    simp only [valRunAux]
    rcases hc : classMatch l with _ | nm
    · simp only [hl]
      exact ih all (k + 1) _ ht
    · exact ih all (k + 1) _ ht

/-- C10 (confirmed).  Both the monitor extractor and the validator
recognize a test only on a line beginning with exactly four spaces
followed by `def test_`: a file none of whose lines has that prefix —
test functions at module level or any other indentation included, and
whatever markers precede them — yields no extracted test, no checked
test, no violation, and an unchanged registry. -/
theorem c10_four_space_indent_only (lines : List Line)
    (h : ∀ l ∈ lines, ("    def test_".toList.isPrefixOf l) = false) :
    monParse lines = [] ∧ valParse lines = []
    ∧ (validate_file (some lines)).2 = [] ∧ checkedOf (some lines) = 0
    ∧ ∀ p R, parse_python_file p (some lines) R = R := by
  have hm : ∀ l ∈ lines, testMatch l = none :=
    fun l hl => testMatch_eq_none_of_no_pre (h l hl)
  have h1 : monParse lines = [] := monRunAux_eq_nil lines lines 0 _ hm
  have h2 : valParse lines = [] := valRunAux_eq_nil lines lines 0 _ hm
  refine ⟨h1, h2, ?_, ?_, ?_⟩
  · simp [validate_file, h2]
  · simp [checkedOf, h2]
  · intro p R
    simp [parse_python_file, h1]

/-- Witness for C10 on `c10lines` (module-level, 8-space and 2-space
test functions below a marker line). -/
theorem c10_witness :
    monParse c10lines = [] ∧ valParse c10lines = []
    ∧ (validate_file (some c10lines)).2 = [] ∧ checkedOf (some c10lines) = 0
    ∧ ∀ p R, parse_python_file p (some c10lines) R = R :=
  c10_four_space_indent_only c10lines (by decide)

/-!  ## C4: the Go/Rust lookback window  -/

theorem scanF_nil_s (mA : Line → Option (Line × Nat)) (f : Nat) (revPre : Line) :
    scanF mA f revPre [] = [] := by
  cases f <;> rfl

theorem scanF_skip (mA : Line → Option (Line × Nat)) :
    ∀ (u : Line) (f : Nat) (revPre t : Line),
      (∀ c ∈ u, ∀ w, mA (c :: w) = none) →
      scanF mA (f + u.length) revPre (u ++ t) = scanF mA f (u.reverse ++ revPre) t := by
  intro u
  induction u with
  | nil => intro f revPre t h; simp
  | cons c u ih =>
    intro f revPre t h
    have hc := h c (List.mem_cons_self c u) (u ++ t)
    have hstep : scanF mA (f + (c :: u).length) revPre ((c :: u) ++ t)
        = scanF mA (f + u.length) (c :: revPre) (u ++ t) := by
      show scanF mA ((f + u.length) + 1) revPre (c :: (u ++ t)) = _
      simp only [scanF, hc]
    rw [hstep, ih f (c :: revPre) t (fun x hx w => h x (List.mem_cons_of_mem c hx) w)]
    simp [List.append_assoc]

theorem isPrefixOf_cons_cons (a b : Char) (as bs : Line) :
    ((a :: as).isPrefixOf (b :: bs)) = (a == b && as.isPrefixOf bs) := rfl

theorem matchGoFuncAt_none_of_head {c : Char} (t : Line) (h : c ≠ 'f') :
    matchGoFuncAt (c :: t) = none := by
  have e1 : ("func Test").toList = 'f' :: ("unc Test").toList := rfl
  have hb : ('f' == c) = false := beq_eq_false_iff_ne.mpr (fun hh => h hh.symm)
  simp only [matchGoFuncAt, e1, isPrefixOf_cons_cons, hb, Bool.false_and, Bool.false_eq_true,
    if_false]

theorem matchRustTestAt_none_of_head {c : Char} (t : Line) (h : c ≠ '#') :
    matchRustTestAt (c :: t) = none := by
  have e1 : ("#[test]").toList = '#' :: ("[test]").toList := rfl
  have hb : ('#' == c) = false := beq_eq_false_iff_ne.mpr (fun hh => h hh.symm)
  simp only [matchRustTestAt, e1, isPrefixOf_cons_cons, hb, Bool.false_and, Bool.false_eq_true,
    if_false]

theorem splitNl_replicate (n : Nat) :
    splitNl (List.replicate n '\n') = List.replicate (n + 1) ([] : Line) := by
  induction n with
  | zero => rfl
  | succ n ih => simp [List.replicate_succ, splitNl, ih]

theorem splitNl_append_no_nl :
    ∀ (x : Line), (∀ c ∈ x, c ≠ '\n') → ∀ (t h : Line) (hs : List Line),
      splitNl t = h :: hs → splitNl (x ++ t) = (x ++ h) :: hs := by
  intro x
  induction x with
  | nil => intro hx t h hs ht; simpa using ht
  | cons c x ih =>
    intro hx t h hs ht
    have hc : c ≠ '\n' := hx c (List.mem_cons_self c x)
    have ih2 := ih (fun a ha => hx a (List.mem_cons_of_mem c ha)) t h hs ht
    show splitNl (c :: (x ++ t)) = (c :: (x ++ h)) :: hs
    simp only [splitNl, if_neg hc, ih2]

theorem go_scan_aux (e : Nat) :
    scan matchGoFuncAt (mkGoContent e)
      = [(("// +build unit").toList ++ List.replicate (e + 1) '\n', ("TestFoo").toList)] := by
  have hnone : ∀ c ∈ ("// +build unit").toList ++ List.replicate (e + 1) '\n',
      ∀ w, matchGoFuncAt (c :: w) = none := by
    intro c hc w
    apply matchGoFuncAt_none_of_head
    rcases List.mem_append.mp hc with h | h
    · have hall : ∀ x ∈ ("// +build unit").toList, x ≠ 'f' := by decide
      exact hall c h
    · rw [List.eq_of_mem_replicate h]; decide
  have hlen : (mkGoContent e).length
      = 17 + (("// +build unit").toList ++ List.replicate (e + 1) '\n').length := by
    rw [mkGoContent, List.append_assoc, List.length_append, List.length_append]
    simp [List.length_replicate]
    omega
  rw [scan, hlen, mkGoContent,
    scanF_skip matchGoFuncAt (("// +build unit").toList ++ List.replicate (e + 1) '\n') 17 []
      (("func TestFoo() {}").toList) hnone]
  have hfc : ("func TestFoo() {}").toList = 'f' :: ("unc TestFoo() {}").toList := rfl
  have hm : matchGoFuncAt ('f' :: ("unc TestFoo() {}").toList)
      = some (("TestFoo").toList, 13) := by decide
  rw [hfc]
  show scanF matchGoFuncAt (16 + 1) _ ('f' :: ("unc TestFoo() {}").toList) = _
  have hm1 : matchGoFuncAt [')', ' ', '{', '}'] = none := by decide
  have hm2 : matchGoFuncAt [' ', '{', '}'] = none := by decide
  have hm3 : matchGoFuncAt ['{', '}'] = none := by decide
  have hm4 : matchGoFuncAt ['}'] = none := by decide
  simp only [scanF, hm, hm1, hm2, hm3, hm4]
  simp

theorem go_tiers_far (e : Nat) (he : 4 ≤ e) :
    (lastN 5 (splitNl (("// +build unit").toList ++ List.replicate (e + 1) '\n'))).foldl
        goTierStep [] = [] := by
  have h1 : splitNl (List.replicate (e + 1) '\n') = [] :: List.replicate (e + 1) ([] : Line) := by
    rw [splitNl_replicate]
    rfl
  have hs : splitNl (("// +build unit").toList ++ List.replicate (e + 1) '\n')
      = (("// +build unit").toList) :: List.replicate (e + 1) ([] : Line) := by
    have h3 := splitNl_append_no_nl (("// +build unit").toList) (by decide)
      (List.replicate (e + 1) '\n') [] (List.replicate (e + 1) ([] : Line)) h1
    simpa using h3
  rw [hs, lastN]
  have hlen : ((("// +build unit").toList) :: List.replicate (e + 1) ([] : Line)).length
      = e + 2 := by simp
  rw [hlen]
  have h4 : e + 2 - 5 = (e - 4) + 1 := by omega
  rw [h4]
  show (List.drop (e - 4) (List.replicate (e + 1) ([] : Line))).foldl goTierStep [] = _
  rw [List.drop_replicate]
  have h5 : e + 1 - (e - 4) = 5 := by omega
  rw [h5]
  decide

theorem rust_scan_aux (e : Nat) :
    scan matchRustTestAt (mkRustContent e)
      = [(("// unit").toList ++ List.replicate (e + 1) '\n', ("works").toList)] := by
  have hnone : ∀ c ∈ ("// unit").toList ++ List.replicate (e + 1) '\n',
      ∀ w, matchRustTestAt (c :: w) = none := by
    intro c hc w
    apply matchRustTestAt_none_of_head
    rcases List.mem_append.mp hc with h | h
    · have hall : ∀ x ∈ ("// unit").toList, x ≠ '#' := by decide
      exact hall c h
    · rw [List.eq_of_mem_replicate h]; decide
  have hlen : (mkRustContent e).length
      = 21 + (("// unit").toList ++ List.replicate (e + 1) '\n').length := by
    rw [mkRustContent, List.append_assoc, List.length_append, List.length_append]
    simp [List.length_replicate]
    omega
  rw [scan, hlen, mkRustContent,
    scanF_skip matchRustTestAt (("// unit").toList ++ List.replicate (e + 1) '\n') 21 []
      (("#[test]\nfn works() {}").toList) hnone]
  have hfc : ("#[test]\nfn works() {}").toList = '#' :: ("[test]\nfn works() {}").toList := rfl
  have hm : matchRustTestAt ('#' :: ("[test]\nfn works() {}").toList)
      = some (("works").toList, 16) := by decide
  rw [hfc]
  show scanF matchRustTestAt (20 + 1) _ ('#' :: ("[test]\nfn works() {}").toList) = _
  have hm1 : matchRustTestAt ['(', ')', ' ', '{', '}'] = none := by decide
  have hm2 : matchRustTestAt [')', ' ', '{', '}'] = none := by decide
  have hm3 : matchRustTestAt [' ', '{', '}'] = none := by decide
  have hm4 : matchRustTestAt ['{', '}'] = none := by decide
  have hm5 : matchRustTestAt ['}'] = none := by decide
  simp only [scanF, hm, hm1, hm2, hm3, hm4, hm5]
  simp

theorem rust_tiers_far (e : Nat) (he : 4 ≤ e) :
    (lastN 5 (splitNl (("// unit").toList ++ List.replicate (e + 1) '\n'))).foldl
        rustTierStep [] = [] := by
  have h1 : splitNl (List.replicate (e + 1) '\n') = [] :: List.replicate (e + 1) ([] : Line) := by
    rw [splitNl_replicate]
    rfl
  have hs : splitNl (("// unit").toList ++ List.replicate (e + 1) '\n')
      = (("// unit").toList) :: List.replicate (e + 1) ([] : Line) := by
    have h3 := splitNl_append_no_nl (("// unit").toList) (by decide)
      (List.replicate (e + 1) '\n') [] (List.replicate (e + 1) ([] : Line)) h1
    simpa using h3
  rw [hs, lastN]
  have hlen : ((("// unit").toList) :: List.replicate (e + 1) ([] : Line)).length = e + 2 := by
    simp
  rw [hlen]
  have h4 : e + 2 - 5 = (e - 4) + 1 := by omega
  rw [h4]
  show (List.drop (e - 4) (List.replicate (e + 1) ([] : Line))).foldl rustTierStep [] = _
  rw [List.drop_replicate]
  have h5 : e + 1 - (e - 4) = 5 := by omega
  rw [h5]
  decide

/-- C4 counterexample.  In `mkGoContent 4` the `// +build unit`
comment sits exactly 5 lines above the `func TestFoo(` declaration —
within the claimed 5-line window — yet the parser attaches no tier,
because `content[:match.start()].split("\n")[-5:]` spends one of its
five slots on the declaration line's own (empty) prefix. -/
theorem c4_counterexample :
    parseGoContent (mkGoContent 4) = [(("TestFoo").toList, [])]
    ∧ parseGoContent (mkGoContent 3) = [(("TestFoo").toList, [Marker.unit])] := by
  constructor <;> decide

/-- C4 as amended.  The lookback window is anchored at the start of
the regex match and consists of the last five newline-separated
segments of the text before it: the four full lines immediately above
the match plus the match line's own prefix.  For Go (match anchored at
`func`) a keyword `e + 1` lines above the declaration attaches exactly
when `e ≤ 3`, i.e. within 4 lines of the declaration; for Rust (match
anchored at the `#[test]` attribute, here on its own line above `fn`)
a keyword `e + 1` lines above the attribute attaches exactly when
`e ≤ 3`, i.e. within 4 lines of the attribute (5 of the `fn` line).
Any earlier keyword attaches nothing. -/
theorem c4_window_is_match_anchored :
    (∀ e, parseGoContent (mkGoContent e)
        = [(("TestFoo").toList, if e ≤ 3 then [Marker.unit] else [])])
    ∧ (∀ e, parseRustContent (mkRustContent e)
        = [(("works").toList, if e ≤ 3 then [Marker.unit] else [])]) := by
  constructor
  · intro e
    rcases Nat.lt_or_ge e 4 with he | he
    · interval_cases e <;> decide
    · rw [parseGoContent, go_scan_aux]
      simp only [List.map_cons, List.map_nil]
      rw [go_tiers_far e he, if_neg (by omega)]
  · intro e
    rcases Nat.lt_or_ge e 4 with he | he
    · interval_cases e <;> decide
    · rw [parseRustContent, rust_scan_aux]
      simp only [List.map_cons, List.map_nil]
      rw [rust_tiers_far e he, if_neg (by omega)]

/-!  ## C3: monitor uncategorized vs validator violations  -/

theorem foldl_search_insert_nil_iff :
    ∀ (L : List Line) (s : List Marker),
      (L.foldl (fun s l => match searchMarker l with
        | some m => minsert m s
        | none => s) s = []) ↔ (s = [] ∧ ∀ l ∈ L, searchMarker l = none) := by
  intro L
  induction L with
  | nil => intro s; simp
  | cons l t ih =>
    intro s
    simp only [List.foldl_cons]
    rw [ih]
    rcases hs : searchMarker l with _ | m
    · constructor
      · rintro ⟨h1, h2⟩
        refine ⟨h1, fun x hx => ?_⟩
        rcases List.mem_cons.mp hx with hx | hx
        · rw [hx]; exact hs
        · exact h2 x hx
      · rintro ⟨h1, h2⟩
        exact ⟨h1, fun x hx => h2 x (List.mem_cons_of_mem l hx)⟩
    · constructor
      · rintro ⟨h1, -⟩
        exact absurd h1 (minsert_ne_nil m s)
      · rintro ⟨-, h2⟩
        have hx := h2 l (List.mem_cons_self l t)
        rw [hs] at hx
        exact Option.noConfusion hx

theorem foldl_addAll_nil_iff :
    ∀ (L : List Line) (s : List Marker),
      (L.foldl (fun s l => addAll (pyMarkersIn l) s) s = []) ↔
        (s = [] ∧ ∀ l ∈ L, pyMarkersIn l = []) := by
  intro L
  induction L with
  | nil => intro s; simp
  | cons l t ih =>
    intro s
    simp only [List.foldl_cons]
    rw [ih, addAll_eq_nil_iff]
    constructor
    · rintro ⟨⟨h1, h2⟩, h3⟩
      refine ⟨h2, fun x hx => ?_⟩
      rcases List.mem_cons.mp hx with hx | hx
      · rw [hx]; exact h1
      · exact h3 x hx
    · rintro ⟨h1, h2⟩
      exact ⟨⟨h2 l (List.mem_cons_self l t), h1⟩, fun x hx => h2 x (List.mem_cons_of_mem l hx)⟩

theorem monWindowMarkers_nil_iff (all : List Line) (k : Nat) :
    monWindowMarkers all k = [] ↔ ∀ l ∈ (all.take k).drop (k - 10), pyMarkersIn l = [] := by
  rw [monWindowMarkers, foldl_search_insert_nil_iff]
  constructor
  · rintro ⟨-, h⟩ l hl
    exact (searchMarker_eq_none_iff l).mp (h l hl)
  · intro h
    exact ⟨rfl, fun l hl => (searchMarker_eq_none_iff l).mpr (h l hl)⟩

theorem valWindowMarkers_nil_iff (all : List Line) (k : Nat) :
    valWindowMarkers all k = [] ↔ ∀ l ∈ (all.take k).drop (k - 11), pyMarkersIn l = [] := by
  rw [valWindowMarkers, foldl_addAll_nil_iff]
  constructor
  · rintro ⟨-, h⟩
    exact h
  · intro h
    exact ⟨rfl, h⟩

theorem window_nil_relation (all : List Line) (k : Nat) (hk : k < all.length)
    (hextra : 11 ≤ k → pyMarkersIn (all.getD (k - 11) []) = []) :
    (monWindowMarkers all k = [] ↔ valWindowMarkers all k = []) := by
  rw [monWindowMarkers_nil_iff, valWindowMarkers_nil_iff]
  rcases Nat.lt_or_ge k 11 with h11 | h11
  · have e1 : k - 10 = k - 11 := by omega
    rw [e1]
  · have hm := hextra h11
    have hk11 : k - 11 < (all.take k).length := by
      rw [List.length_take]
      exact lt_min (by omega) (by omega)
    have hk11a : k - 11 < all.length := by omega
    have hcons : (all.take k).drop (k - 11)
        = all.getD (k - 11) [] :: (all.take k).drop (k - 10) := by
      rw [List.drop_eq_getElem_cons hk11, List.getD_eq_getElem all [] hk11a]
      congr 1
      · exact List.getElem_take all
      · congr 1
        omega
    rw [hcons]
    constructor
    · intro h l hl
      rcases List.mem_cons.mp hl with hl | hl
      · rw [hl]; exact hm
      · exact h l hl
    · intro h l hl
      exact h l (List.mem_cons_of_mem _ hl)

theorem classMatch_some_shape {l nm : Line} (h : classMatch l = some nm) :
    ∃ rest, l = 'c' :: rest := by
  by_cases hp : (("class Test").toList.isPrefixOf l) = true
  · rcases l with _ | ⟨c, rest⟩
    · exact absurd hp (by decide)
    · have e1 : ("class Test").toList = 'c' :: ("lass Test").toList := rfl
      rw [e1, isPrefixOf_cons_cons, Bool.and_eq_true] at hp
      have hcq := beq_iff_eq.mp hp.1
      exact ⟨rest, by rw [← hcq]⟩
  · rw [classMatch, if_neg hp] at h
    exact Option.noConfusion h

theorem pyMarkLineB_of_class {l nm : Line} (h : classMatch l = some nm) :
    pyMarkLineB l = false := by
  obtain ⟨rest, rfl⟩ := classMatch_some_shape h
  rw [pyMarkLineB]
  rw [List.dropWhile_cons_of_neg (by decide)]
  have e2 : ("@pytest.mark.").toList = '@' :: ("pytest.mark.").toList := rfl
  rw [e2, isPrefixOf_cons_cons]
  simp

theorem testMatch_none_of_class {l nm : Line} (h : classMatch l = some nm) :
    testMatch l = none := by
  obtain ⟨rest, rfl⟩ := classMatch_some_shape h
  apply testMatch_eq_none_of_no_pre
  have e : ("    def test_").toList = ' ' :: ("   def test_").toList := rfl
  rw [e, isPrefixOf_cons_cons]
  simp

theorem fm_step_iff {l : Line} {fm pend : List Marker} (h : fm = [] ↔ pend = []) :
    ((if pyMarkLineB l then
        (match searchMarker l with
         | some m => minsert m fm
         | none => fm)
      else fm) = []
      ↔ (if pyMarkLineB l then addAll (pyMarkersIn l) pend else pend) = []) := by
  by_cases hp : pyMarkLineB l = true
  · rw [if_pos hp, if_pos hp]
    rcases hs : searchMarker l with _ | m
    · have hpm : pyMarkersIn l = [] := (searchMarker_eq_none_iff l).mp hs
      rw [hpm]
      show fm = [] ↔ pend = []
      exact h
    · have hpm : pyMarkersIn l ≠ [] := by
        intro hc
        rw [← searchMarker_eq_none_iff, hs] at hc
        exact Option.noConfusion hc
      show minsert m fm = [] ↔ addAll (pyMarkersIn l) pend = []
      refine ⟨fun hc => absurd hc (minsert_ne_nil m fm), fun hc => ?_⟩
      rw [addAll_eq_nil_iff] at hc
      exact absurd hc.1 hpm
  · rw [if_neg hp, if_neg hp]
    exact h

theorem filter_map_line_cons (ev : PyEv) (rest1 : List PyEv) :
    (((ev :: rest1).filter (fun e => e.markers = [])).map (fun e => e.line))
      = if ev.markers = []
        then ev.line :: ((rest1.filter (fun e => e.markers = [])).map (fun e => e.line))
        else ((rest1.filter (fun e => e.markers = [])).map (fun e => e.line)) := by
  by_cases hme : ev.markers = [] <;> simp [List.filter_cons, hme]

theorem c3_sim (all : List Line) (hall : noMarker11 all) :
    ∀ (rest : List Line) (k : Nat) (clsM clsV : Option Line) (cm cmV fm pend : List Marker),
      rest = all.drop k →
      (fm = [] ↔ pend = []) →
      (cm = [] ↔ cmV = []) →
      ((valRunAux all rest k ⟨clsV, cmV, pend⟩).filter (fun e => e.markers = [])).map
          (fun e => e.line)
        = (((monRunAux all rest k ⟨clsM, cm, fm⟩).filter (fun e => e.markers = [])).map
            (fun e => e.line)).map (· + 1) := by
  intro rest
  induction rest with
  | nil => intro k clsM clsV cm cmV fm pend hrest hfp hcc; rfl
  | cons l t ih =>
    intro k clsM clsV cm cmV fm pend hrest hfp hcc
    have hk : k < all.length := by
      by_contra hk
      rw [List.drop_eq_nil_of_le (Nat.le_of_not_lt hk)] at hrest
      exact List.noConfusion hrest
    rw [List.drop_eq_getElem_cons hk] at hrest
    injection hrest with hl ht
    rcases hc : classMatch l with _ | nm
    · have hfp2 : (if pyMarkLineB l then
            (match searchMarker l with
             | some m => minsert m fm
             | none => fm)
          else fm) = [] ↔ (if pyMarkLineB l then addAll (pyMarkersIn l) pend else pend) = [] :=
        fm_step_iff hfp
      have hscan : monScanLine all k ⟨clsM, cm, fm⟩ l
          = ⟨clsM, cm, (if pyMarkLineB l then
              (match searchMarker l with
               | some m => minsert m fm
               | none => fm)
            else fm)⟩ := by
        cases hp : pyMarkLineB l
        · simp [monScanLine, hc, hp]
        · rcases hs : searchMarker l with _ | m <;> simp [monScanLine, hc, hp, hs]
      rcases htm : testMatch l with _ | nm2
      · have hmon : monRunAux all (l :: t) k ⟨clsM, cm, fm⟩
            = monRunAux all t (k + 1) ⟨clsM, cm, (if pyMarkLineB l then
                (match searchMarker l with
                 | some m => minsert m fm
                 | none => fm)
              else fm)⟩ := by
          simp only [monRunAux, hscan, htm]
        have hval : valRunAux all (l :: t) k ⟨clsV, cmV, pend⟩
            = valRunAux all t (k + 1)
                ⟨clsV, cmV, (if pyMarkLineB l then addAll (pyMarkersIn l) pend else pend)⟩ := by
          cases hp : pyMarkLineB l <;> simp only [valRunAux, hc, htm, hp] <;> simp
        rw [hmon, hval]
        exact ih (k + 1) clsM clsV cm cmV _ _ ht hfp2 hcc
      · have hmon : monRunAux all (l :: t) k ⟨clsM, cm, fm⟩
            = ⟨k, clsM, nm2, addAll cm (if pyMarkLineB l then
                (match searchMarker l with
                 | some m => minsert m fm
                 | none => fm)
              else fm)⟩ :: monRunAux all t (k + 1) ⟨clsM, cm, []⟩ := by
          simp only [monRunAux, hscan, htm]
        have hval : valRunAux all (l :: t) k ⟨clsV, cmV, pend⟩
            = ⟨k + 1, clsV, nm2,
                addAll (if pyMarkLineB l then addAll (pyMarkersIn l) pend else pend) cmV⟩
              :: valRunAux all t (k + 1) ⟨clsV, cmV, []⟩ := by
          cases hp : pyMarkLineB l <;> simp only [valRunAux, hc, htm, hp] <;> simp
        rw [hmon, hval]
        have hmk : (addAll (if pyMarkLineB l then addAll (pyMarkersIn l) pend else pend) cmV = [])
            ↔ (addAll cm (if pyMarkLineB l then
                (match searchMarker l with
                 | some m => minsert m fm
                 | none => fm)
              else fm) = []) := by
          rw [addAll_eq_nil_iff, addAll_eq_nil_iff]
          constructor
          · rintro ⟨h1, h2⟩
            exact ⟨hcc.mpr h2, hfp2.mpr h1⟩
          · rintro ⟨h1, h2⟩
            exact ⟨hfp2.mp h2, hcc.mp h1⟩
        have hrec := ih (k + 1) clsM clsV cm cmV [] [] ht Iff.rfl hcc
        rw [filter_map_line_cons, filter_map_line_cons]
        by_cases hz : addAll cm (if pyMarkLineB l then
            (match searchMarker l with
             | some m => minsert m fm
             | none => fm)
          else fm) = []
        · have hz2 := hmk.mpr hz
          rw [if_pos hz2, if_pos hz]
          simp only [List.map_cons]
          rw [hrec]
        · have hz2 : ¬(addAll (if pyMarkLineB l then addAll (pyMarkersIn l) pend else pend) cmV
              = []) := fun hx => hz (hmk.mp hx)
          rw [if_neg hz2, if_neg hz]
          exact hrec
    · have hpmB : pyMarkLineB l = false := pyMarkLineB_of_class hc
      have htmB : testMatch l = none := testMatch_none_of_class hc
      have hscan : monScanLine all k ⟨clsM, cm, fm⟩ l
          = ⟨some nm, monWindowMarkers all k, []⟩ := by
        simp [monScanLine, hc, hpmB]
      have hmon : monRunAux all (l :: t) k ⟨clsM, cm, fm⟩
          = monRunAux all t (k + 1) ⟨some nm, monWindowMarkers all k, []⟩ := by
        simp only [monRunAux, hscan, htmB]
      have hval : valRunAux all (l :: t) k ⟨clsV, cmV, pend⟩
          = valRunAux all t (k + 1) ⟨some nm, valWindowMarkers all k, []⟩ := by
        simp only [valRunAux, hc]
      rw [hmon, hval]
      have hwin : monWindowMarkers all k = [] ↔ valWindowMarkers all k = [] := by
        apply window_nil_relation all k hk
        intro h11
        apply hall k hk h11
        rw [List.getD_eq_getElem all [] hk, ← hl, hc]
        simp
      exact ih (k + 1) (some nm) (some nm) _ _ [] [] ht Iff.rfl hwin

/-- C3 counterexample.  On `c3lines` the `@pytest.mark.unit` line sits
exactly 11 lines above `class TestA`: the validator's lookback finds it
and reports no violation, while the monitor's 10-line lookback misses
it and adds the test uncategorized — the two sets differ. -/
theorem c3_counterexample :
    valViolationLines c3lines = [] ∧ monUncatLines c3lines = [12] := by
  constructor <;> decide

/-- C3 as amended.  The two components agree on which lines are tests,
which lines open a scope and whether any function-level marker is
pending, but the validator's scope lookback spans 11 lines where the
monitor's spans 10.  Provided no tier-marker line sits exactly 11 lines
above a scope declaration, the validator's violations are exactly the
monitor's uncategorized additions (line numbers shifted by one between
the validator's 1-based and the monitor's 0-based counting). -/
theorem c3_agreement (lines : List Line) (h : noMarker11 lines) :
    valViolationLines lines = (monUncatLines lines).map (· + 1) := by
  rw [valViolationLines, monUncatLines, valParse, monParse]
  exact c3_sim lines h lines 0 none none [] [] [] [] rfl Iff.rfl Iff.rfl

/-- Witness for C3 on a file with two unmarked tests: both components
flag lines 2 and 4. -/
theorem c3_witness : valViolationLines c3wlines = (monUncatLines c3wlines).map (· + 1) :=
  c3_agreement c3wlines (by
    intro k hk h11 _
    have hlen : c3wlines.length = 4 := rfl
    omega)

end Pyramid
